import Mathlib

/-!
Shallow embedding of `src/make_demo.py` (rsheeter/quality_threshold): the tag
ingestion (`tags`), quality classification (`quality_for`, `min_quality_for`,
`quality_tags_for`) and the ranking performed in `main`.

Modelling conventions:
* Python `float` weights are modelled as `ℚ`; every comparison the program
  performs (`>= 70`, `<= 30`, `min`, sort keys) is exact on the decimal
  literals involved, so rationals are a faithful model.
* Python's `set` of tags is modelled as a `List Tag` without duplicates, built
  in insertion order by `add_tag`; set-level facts are stated via
  `List.toFinset`.
* Python exceptions are modelled by `Except PyError`.
* Filesystem discovery (`gf_dir`, `rglob`) is out of scope; `load` takes the
  discovered files (name plus parsed CSV rows) as input.
-/

/-- Quality of the font (enum `Quality`, src/make_demo.py lines 10-16). -/
inductive Quality
  | UNKNOWN
  | LOW
  | MEDIUM
  | HIGH
deriving DecidableEq

/-- The numeric value of each enum member (`Quality.value` in Python:
`UNKNOWN = 0`, `LOW = 1`, `MEDIUM = 2`, `HIGH = 3`). -/
def Quality.value : Quality → ℕ
  | .UNKNOWN => 0
  | .LOW => 1
  | .MEDIUM => 2
  | .HIGH => 3

/-- The frozen dataclass `Tag` (src/make_demo.py lines 19-24).  `location` is
`None` for 3-field CSV rows, hence `Option String`. -/
structure Tag where
  family : String
  location : Option String
  name : String
  weight : ℚ
deriving DecidableEq

/-- Python exceptions raised by the modelled code. -/
inductive PyError
  /-- Python `ValueError`; the payload records the message or offending text. -/
  | valueError (msg : String)
  /-- Python `TypeError`; raised when `"Bad line " + row` concatenates a `str`
  with a `list` (src/make_demo.py line 97). -/
  | typeError (msg : String)
deriving DecidableEq

/-- One discovered CSV file: its filename and its rows as already split by
`csv.reader` (each row a list of fields). -/
structure CsvFile where
  name : String
  rows : List (List String)
deriving DecidableEq

/-- The numeric value of a list of decimal digit characters. -/
def digitsVal (cs : List Char) : ℕ :=
  cs.foldl (fun n c => 10 * n + (c.toNat - 48)) 0

/-- Modelled from Python's `float` builtin, unsigned part: digits with an
optional fractional part.  Returns `none` when the characters are not such a
numeral (Python raises `ValueError`). -/
def pyFloatCore (cs : List Char) : Option ℚ :=
  let intPart := cs.takeWhile Char.isDigit
  let rest := cs.dropWhile Char.isDigit
  match rest with
  | [] => if intPart.isEmpty then none else some (digitsVal intPart : ℚ)
  | '.' :: frac =>
    if frac.all Char.isDigit && !(intPart.isEmpty && frac.isEmpty) then
      some ((digitsVal intPart : ℚ) + (digitsVal frac : ℚ) / ((10 : ℚ) ^ frac.length))
    else none
  | _ => none

/-- Modelled from Python's `float(str)` builtin on the decimal-literal subset
exercised by the tag CSVs: an optional sign followed by digits with an optional
fractional part.  Scientific notation, `inf`, `nan`, underscores and
surrounding whitespace are not modelled (no claim depends on them). -/
def pyFloat (s : String) : Option ℚ :=
  match s.data with
  | '-' :: rest => (pyFloatCore rest).map (fun q => -q)
  | '+' :: rest => pyFloatCore rest
  | cs => pyFloatCore cs

/-- Python `s.startswith(pre)`, on code points. -/
def startswith (s pre : String) : Bool :=
  isPrefixList pre.data s.data
where
  /-- list-level prefix test -/
  isPrefixList : List Char → List Char → Bool
    | [], _ => true
    | _ :: _, [] => false
    | c :: cs, d :: ds => c = d && isPrefixList cs ds

/-- Python `a < b` on strings: lexicographic comparison of code points. -/
def pyStrLt (a b : String) : Bool :=
  charsLt a.data b.data
where
  /-- lexicographic order on code-point lists -/
  charsLt : List Char → List Char → Bool
    | [], [] => false
    | [], _ :: _ => true
    | _ :: _, [] => false
    | c :: cs, d :: ds => c < d || (c = d && charsLt cs ds)

/-- The per-row handling inside `tags()` (src/make_demo.py lines 89-97):
convert the last field to float (`ValueError` if impossible), build a `Tag`
from a 3- or 4-field row, and otherwise run `raise ValueError("Bad line " +
row)` — which itself raises `TypeError`, because Python cannot concatenate a
`str` and a `list`.  The empty-row case is unreachable: `load` only passes
rows that survived the `len(r) > 0` filter. -/
def parse_row (row : List String) : Except PyError Tag :=
  match row.getLast? with
  | none => .error (.valueError "unreachable: blank rows are filtered out")
  | some last =>
    match pyFloat last with
    | none => .error (.valueError ("could not convert string to float: " ++ last))
    | some w =>
      match row with
      | [f, n, _] => .ok ⟨f, none, n, w⟩
      | [f, l, n, _] => .ok ⟨f, some l, n, w⟩
      | _ => .error (.typeError "can only concatenate str (not list) to str")

/-- Python `set.add`: append the tag unless an equal tag is already present. -/
def add_tag (acc : List Tag) (t : Tag) : List Tag :=
  if t ∈ acc then acc else acc ++ [t]

/-- The inner row loop of `tags()` (src/make_demo.py lines 89-98): parse each
row in order, adding each resulting tag to the accumulated set; the first
malformed row aborts the load. -/
def load_rows (acc : List Tag) : List (List String) → Except PyError (List Tag)
  | [] => .ok acc
  | row :: rest =>
    match parse_row row with
    | .error e => .error e
    | .ok t => load_rows (add_tag acc t) rest

/-- The outer file loop of `tags()` (src/make_demo.py lines 82-98): skip any
file named exactly `families.csv`, drop blank rows (`len(r) > 0`), and feed the
remaining rows through `load_rows`. -/
def load_files (acc : List Tag) : List CsvFile → Except PyError (List Tag)
  | [] => .ok acc
  | file :: rest =>
    if file.name = "families.csv" then load_files acc rest
    else
      match load_rows acc (file.rows.filter (fun r => !r.isEmpty)) with
      | .error e => .error e
      | .ok acc₂ => load_files acc₂ rest

/-- `tags()` (src/make_demo.py lines 78-99) applied to the discovered files:
the de-duplicated tag set, modelled as a duplicate-free list in insertion
order. -/
def load (files : List CsvFile) : Except PyError (List Tag) :=
  load_files [] files

/-- `quality_tags_for` (src/make_demo.py lines 32-34, via
`quality_tags_by_family`, lines 68-75): the family's tags whose name starts
with `/Quality/`. -/
def quality_tags_for (ts : List Tag) (f : String) : List Tag :=
  ts.filter (fun t => t.family == f && startswith t.name "/Quality/")

/-- `min_quality_for` (src/make_demo.py lines 37-38): the minimum weight among
the family's quality tags; Python's `min` raises `ValueError` on an empty
sequence. -/
def min_quality_for (ts : List Tag) (f : String) : Except PyError ℚ :=
  match (quality_tags_for ts f).map Tag.weight with
  | [] => .error (.valueError "min() arg is an empty sequence")
  | w :: ws => .ok (ws.foldl min w)

/-- The high-quality cutoff hard-coded at src/make_demo.py line 53. -/
def HIGH_THRESHOLD : ℚ := 70

/-- The low-quality cutoff hard-coded at src/make_demo.py line 56. -/
def LOW_THRESHOLD : ℚ := 30

/-- `quality_for` (src/make_demo.py lines 41-58).  The `.error` branch of the
match is unreachable: `min_quality_for` only fails when the quality-tag list is
empty, and that case already returned `UNKNOWN`. -/
def quality_for (ts : List Tag) (f : String) : Quality :=
  let quality_tags := quality_tags_for ts f
  if quality_tags.isEmpty then .UNKNOWN
  else
    match min_quality_for ts f with
    | .error _ => .UNKNOWN
    | .ok min_quality =>
      if (∃ t ∈ quality_tags, t.name ≠ "/Quality/Wordspace") ∧ HIGH_THRESHOLD ≤ min_quality then
        .HIGH
      else if min_quality ≤ LOW_THRESHOLD then .LOW
      else .MEDIUM

/-- The value of `min_quality_for(f)` as used inside `main`'s sort key
(src/make_demo.py line 110).  `main` only sorts families whose quality is not
`UNKNOWN`, so the call never fails there; the `0` default is unreachable in
that context. -/
def min_quality_val (ts : List Tag) (f : String) : ℚ :=
  match min_quality_for ts f with
  | .ok q => q
  | .error _ => 0

/-- The sort key built in `main` (src/make_demo.py line 110):
`(-quality_for(f).value, -min_quality_for(f), f)`. -/
def rank_key (ts : List Tag) (f : String) : ℤ × ℚ × String :=
  (-((quality_for ts f).value : ℤ), -(min_quality_val ts f), f)

/-- Python's `<` on the 3-tuples produced by the sort key: lexicographic. -/
def key_lt (a b : ℤ × ℚ × String) : Prop :=
  a.1 < b.1 ∨ (a.1 = b.1 ∧ (a.2.1 < b.2.1 ∨ (a.2.1 = b.2.1 ∧ pyStrLt a.2.2 b.2.2 = true)))

instance key_lt_dec (a b : ℤ × ℚ × String) : Decidable (key_lt a b) := by
  unfold key_lt
  infer_instance

/-- The reflexive closure of `key_lt`; `sorted` orders by this relation. -/
def key_le (a b : ℤ × ℚ × String) : Prop :=
  key_lt a b ∨ a = b

instance key_le_dec (a b : ℤ × ℚ × String) : Decidable (key_le a b) := by
  unfold key_le
  infer_instance

/-- `f` sorts strictly before `g` under `main`'s sort key. -/
def ranks_before (ts : List Tag) (f g : String) : Prop :=
  key_lt (rank_key ts f) (rank_key ts g)

instance ranks_before_dec (ts : List Tag) : DecidableRel (ranks_before ts) := fun f g => by
  unfold ranks_before
  infer_instance

/-- Comparator form of `main`'s ranking. -/
def family_rank_le (ts : List Tag) (f g : String) : Prop :=
  key_le (rank_key ts f) (rank_key ts g)

instance rank_le_dec (ts : List Tag) : DecidableRel (family_rank_le ts) := fun f g => by
  unfold family_rank_le
  infer_instance

/-- The `families` list computed by `main` (src/make_demo.py lines 108-111):
the set of families whose quality is not `UNKNOWN`, sorted by `rank_key`.
Python's `sorted` over a set is modelled by `List.insertionSort` over the
de-duplicated family list; since `rank_key` ends with the family name itself,
the key is injective and the sorted output is the unique `key_le`-ordered
enumeration, independent of set-iteration order. -/
def ranked_families (ts : List Tag) : List String :=
  List.insertionSort (family_rank_le ts)
    (((ts.map Tag.family).dedup).filter (fun f => decide (quality_for ts f ≠ Quality.UNKNOWN)))

/-- The guard in `main` (src/make_demo.py lines 112-113): an empty ranking is
an error, not an empty report. -/
def main_families (ts : List Tag) : Except PyError (List String) :=
  let families := ranked_families ts
  if families.isEmpty then .error (.valueError "No families have quality, seems sus!")
  else .ok families

/-! ## General lemmas about the embedding -/

theorem mem_quality_tags_for {ts : List Tag} {f : String} {t : Tag} :
    t ∈ quality_tags_for ts f ↔
      t ∈ ts ∧ t.family = f ∧ startswith t.name "/Quality/" = true := by
  simp [quality_tags_for, List.mem_filter, Bool.and_eq_true, beq_iff_eq, and_assoc]

theorem foldl_min_le_start (ws : List ℚ) (w : ℚ) : ws.foldl min w ≤ w := by
  induction ws generalizing w with
  | nil => simp [List.foldl]
  | cons x xs ih => exact le_trans (ih (min w x)) (min_le_left w x)

theorem foldl_min_le_mem (ws : List ℚ) (w : ℚ) : ∀ x ∈ ws, ws.foldl min w ≤ x := by
  induction ws generalizing w with
  | nil => intro x hx; cases hx
  | cons y ys ih =>
    intro x hx
    rcases List.mem_cons.mp hx with rfl | hx'
    · exact le_trans (foldl_min_le_start ys (min w x)) (min_le_right w x)
    · exact ih (min w y) x hx'

theorem foldl_min_mem (ws : List ℚ) (w : ℚ) : ws.foldl min w = w ∨ ws.foldl min w ∈ ws := by
  induction ws generalizing w with
  | nil => left; rfl
  | cons y ys ih =>
    rcases ih (min w y) with h | h
    · rcases min_choice w y with hm | hm
      · left; rw [List.foldl, h, hm]
      · right; rw [List.foldl, h, hm]; exact List.mem_cons_self y ys
    · right; exact List.mem_cons_of_mem y h

/-! ## Claim theorems -/

/-- C9: `min_quality_for` fails with the empty-sequence `ValueError` (the
spec's `NoQualityData`) on a family with zero quality tags, and for every
family with at least one quality tag it returns the minimum weight among that
family's quality tags. -/
theorem min_quality_for_spec (ts : List Tag) (f : String) :
    (quality_tags_for ts f = [] ∧
      min_quality_for ts f = .error (.valueError "min() arg is an empty sequence"))
    ∨ (∃ q, min_quality_for ts f = .ok q
        ∧ (∃ t ∈ quality_tags_for ts f, t.weight = q)
        ∧ ∀ t ∈ quality_tags_for ts f, q ≤ t.weight) := by
  cases hq : quality_tags_for ts f with
  | nil =>
    left
    exact ⟨rfl, by simp [min_quality_for, hq]⟩
  | cons t rest =>
    right
    refine ⟨(rest.map Tag.weight).foldl min t.weight, by simp [min_quality_for, hq], ?_, ?_⟩
    · rcases foldl_min_mem (rest.map Tag.weight) t.weight with h | h
      · exact ⟨t, by simp [hq], h.symm⟩
      · rcases List.mem_map.mp h with ⟨u, hu, hw⟩
        exact ⟨u, by simp [hq, hu], hw⟩
    · intro u hu
      rcases List.mem_cons.mp hu with rfl | hu'
      · exact foldl_min_le_start _ _
      · exact foldl_min_le_mem _ _ _ (List.mem_map_of_mem _ hu')

/-- C1: for a family with at least one non-wordspace quality tag, with
`HIGH_THRESHOLD = 70` and `LOW_THRESHOLD = 30`, `quality_for` classifies HIGH
exactly when the minimum quality weight is at least 70 (including exactly 70),
LOW when it is at most 30 (including exactly 30), and MEDIUM strictly in
between (for instance at 50). -/
theorem quality_for_thresholds (ts : List Tag) (f : String) (m : ℚ)
    (hnw : ∃ t ∈ quality_tags_for ts f, t.name ≠ "/Quality/Wordspace")
    (hm : min_quality_for ts f = .ok m) :
    quality_for ts f =
      if HIGH_THRESHOLD ≤ m then .HIGH else if m ≤ LOW_THRESHOLD then .LOW else .MEDIUM := by
  obtain ⟨t, ht, hname⟩ := hnw
  have hne : quality_tags_for ts f ≠ [] := by
    intro h
    rw [h] at ht
    exact absurd ht (List.not_mem_nil t)
  have hemp : (quality_tags_for ts f).isEmpty = false := by
    simpa [List.isEmpty_iff] using hne
  have hval : quality_for ts f
      = if (∃ t ∈ quality_tags_for ts f, t.name ≠ "/Quality/Wordspace") ∧ HIGH_THRESHOLD ≤ m
        then Quality.HIGH else if m ≤ LOW_THRESHOLD then Quality.LOW else Quality.MEDIUM := by
    simp only [quality_for, hemp, Bool.false_eq_true, if_false, hm]
  rw [hval]
  by_cases h70 : HIGH_THRESHOLD ≤ m
  · rw [if_pos ⟨⟨t, ht, hname⟩, h70⟩, if_pos h70]
  · rw [if_neg (fun hc => h70 hc.2), if_neg h70]

/-- C1 witness: a single non-wordspace quality tag at weight exactly 70 is
HIGH, at exactly 30 LOW, at 50 MEDIUM. -/
theorem quality_for_thresholds_witness :
    quality_for [Tag.mk "Fam" none "/Quality/Legibility" 70] "Fam" = .HIGH
    ∧ quality_for [Tag.mk "Fam" none "/Quality/Legibility" 30] "Fam" = .LOW
    ∧ quality_for [Tag.mk "Fam" none "/Quality/Legibility" 50] "Fam" = .MEDIUM := by
  refine ⟨?_, ?_, ?_⟩
  · exact (quality_for_thresholds [Tag.mk "Fam" none "/Quality/Legibility" 70] "Fam" 70
      (by decide) rfl).trans (by decide)
  · exact (quality_for_thresholds [Tag.mk "Fam" none "/Quality/Legibility" 30] "Fam" 30
      (by decide) rfl).trans (by decide)
  · exact (quality_for_thresholds [Tag.mk "Fam" none "/Quality/Legibility" 50] "Fam" 50
      (by decide) rfl).trans (by decide)

/-- C2: a family whose quality tags are all named `/Quality/Wordspace` is never
classified HIGH, whatever the weights; its tier is at most MEDIUM. -/
theorem wordspace_only_never_high (ts : List Tag) (f : String)
    (h : ∀ t ∈ quality_tags_for ts f, t.name = "/Quality/Wordspace") :
    quality_for ts f ≠ .HIGH ∧ (quality_for ts f).value ≤ Quality.MEDIUM.value := by
  have hhigh : quality_for ts f ≠ .HIGH := by
    cases hq : (quality_tags_for ts f).isEmpty
    · cases hm : min_quality_for ts f with
      | error e => simp [quality_for, hq, hm]
      | ok mq =>
        have hval : quality_for ts f
            = if (∃ t ∈ quality_tags_for ts f, t.name ≠ "/Quality/Wordspace")
                ∧ HIGH_THRESHOLD ≤ mq
              then Quality.HIGH else if mq ≤ LOW_THRESHOLD then Quality.LOW
              else Quality.MEDIUM := by
          simp only [quality_for, hq, Bool.false_eq_true, if_false, hm]
        have hno : ¬ ((∃ t ∈ quality_tags_for ts f, t.name ≠ "/Quality/Wordspace")
            ∧ HIGH_THRESHOLD ≤ mq) := by
          rintro ⟨⟨t, ht, hn⟩, -⟩
          exact hn (h t ht)
        rw [hval, if_neg hno]
        split <;> simp
    · simp [quality_for, hq]
  refine ⟨hhigh, ?_⟩
  cases hc : quality_for ts f
  · simp [Quality.value]
  · simp [Quality.value]
  · simp [Quality.value]
  · exact absurd hc hhigh

/-- C2 witness: a single `/Quality/Wordspace` tag at weight 100 gives MEDIUM,
not HIGH. -/
theorem wordspace_only_never_high_witness :
    quality_for [Tag.mk "Fam" none "/Quality/Wordspace" 100] "Fam" ≠ .HIGH
    ∧ quality_for [Tag.mk "Fam" none "/Quality/Wordspace" 100] "Fam" = .MEDIUM :=
  ⟨(wordspace_only_never_high [Tag.mk "Fam" none "/Quality/Wordspace" 100] "Fam"
      (by decide)).1,
    by decide⟩

/-- C3 counterexample: two families in the same tier (both HIGH), X with
minimum quality 72 and Y with minimum quality 95.  The claim's
"minimum quality ascending" would put X first; the comparator
`(-quality.value, -min_quality, family)` of src/make_demo.py line 110 puts Y
(the higher minimum quality) first. -/
theorem ranking_minq_ascending_false :
    ¬ ranks_before [Tag.mk "X" none "/Quality/A" 72, Tag.mk "Y" none "/Quality/A" 95] "X" "Y"
    ∧ ranks_before [Tag.mk "X" none "/Quality/A" 72, Tag.mk "Y" none "/Quality/A" 95] "Y" "X"
    ∧ quality_for [Tag.mk "X" none "/Quality/A" 72, Tag.mk "Y" none "/Quality/A" 95] "X" = .HIGH
    ∧ quality_for [Tag.mk "X" none "/Quality/A" 72, Tag.mk "Y" none "/Quality/A" 95] "Y" = .HIGH
    ∧ min_quality_val [Tag.mk "X" none "/Quality/A" 72, Tag.mk "Y" none "/Quality/A" 95] "X" = 72
    ∧ min_quality_val [Tag.mk "X" none "/Quality/A" 72, Tag.mk "Y" none "/Quality/A" 95] "Y" = 95
    ∧ ranked_families [Tag.mk "X" none "/Quality/A" 72, Tag.mk "Y" none "/Quality/A" 95]
        = ["Y", "X"] := by
  refine ⟨by decide, by decide, by decide, by decide, by decide, by decide, by decide⟩

/-- C3 (amended): the ranking comparator orders families first by tier
descending, then within a tier by minimum quality descending (higher minimum
quality first), then by family name ascending as the final tie-break. -/
theorem ranks_before_iff (ts : List Tag) (f g : String) :
    ranks_before ts f g ↔
      ((quality_for ts g).value < (quality_for ts f).value
       ∨ ((quality_for ts f).value = (quality_for ts g).value
          ∧ (min_quality_val ts g < min_quality_val ts f
             ∨ (min_quality_val ts f = min_quality_val ts g ∧ pyStrLt f g = true)))) := by
  simp only [ranks_before, key_lt, rank_key]
  constructor
  · rintro (h1 | ⟨h1, h2 | ⟨h2, h3⟩⟩)
    · left
      exact_mod_cast neg_lt_neg_iff.mp h1
    · right
      refine ⟨by exact_mod_cast neg_inj.mp h1, Or.inl ?_⟩
      exact neg_lt_neg_iff.mp h2
    · right
      exact ⟨by exact_mod_cast neg_inj.mp h1, Or.inr ⟨neg_inj.mp h2, h3⟩⟩
  · rintro (h1 | ⟨h1, h2 | ⟨h2, h3⟩⟩)
    · left
      exact neg_lt_neg_iff.mpr (by exact_mod_cast h1)
    · exact Or.inr ⟨neg_inj.mpr (by exact_mod_cast h1), Or.inl (neg_lt_neg_iff.mpr h2)⟩
    · exact Or.inr ⟨neg_inj.mpr (by exact_mod_cast h1), Or.inr ⟨neg_inj.mpr h2, h3⟩⟩

/-- C4: with A rated HIGH at minimum quality 95, B rated HIGH at 72 and C
rated MEDIUM at 50, `main`'s ranking orders them A, B, C. -/
theorem rank_order_example :
    quality_for [Tag.mk "A" none "/Quality/X" 95, Tag.mk "B" none "/Quality/X" 72,
        Tag.mk "C" none "/Quality/X" 50] "A" = .HIGH
    ∧ quality_for [Tag.mk "A" none "/Quality/X" 95, Tag.mk "B" none "/Quality/X" 72,
        Tag.mk "C" none "/Quality/X" 50] "B" = .HIGH
    ∧ quality_for [Tag.mk "A" none "/Quality/X" 95, Tag.mk "B" none "/Quality/X" 72,
        Tag.mk "C" none "/Quality/X" 50] "C" = .MEDIUM
    ∧ min_quality_val [Tag.mk "A" none "/Quality/X" 95, Tag.mk "B" none "/Quality/X" 72,
        Tag.mk "C" none "/Quality/X" 50] "A" = 95
    ∧ min_quality_val [Tag.mk "A" none "/Quality/X" 95, Tag.mk "B" none "/Quality/X" 72,
        Tag.mk "C" none "/Quality/X" 50] "B" = 72
    ∧ min_quality_val [Tag.mk "A" none "/Quality/X" 95, Tag.mk "B" none "/Quality/X" 72,
        Tag.mk "C" none "/Quality/X" 50] "C" = 50
    ∧ ranked_families [Tag.mk "A" none "/Quality/X" 95, Tag.mk "B" none "/Quality/X" 72,
        Tag.mk "C" none "/Quality/X" 50] = ["A", "B", "C"] := by
  refine ⟨by decide, by decide, by decide, by decide, by decide, by decide, by decide⟩

/-- C5: evaluation of the row handling at the malformed inputs.  The 1-field
row `OnlyOneField` and the row `Fam,Name,notanumber` both raise `ValueError`
(the spec's `MalformedRow`) from the float conversion; but a row with a field
count other than 3 or 4 whose last field *is* numeric (here `Fam,70`) reaches
`raise ValueError("Bad line " + row)`, whose message expression itself raises
`TypeError` — it never produces the `MalformedRow` error naming the row. -/
theorem malformed_row_behavior :
    parse_row ["OnlyOneField"]
      = .error (.valueError "could not convert string to float: OnlyOneField")
    ∧ parse_row ["Fam", "Name", "notanumber"]
      = .error (.valueError "could not convert string to float: notanumber")
    ∧ load [CsvFile.mk "t.csv" [["OnlyOneField"]]]
      = .error (.valueError "could not convert string to float: OnlyOneField")
    ∧ load [CsvFile.mk "t.csv" [["Fam", "Name", "notanumber"]]]
      = .error (.valueError "could not convert string to float: notanumber")
    ∧ parse_row ["Fam", "70"]
      = .error (.typeError "can only concatenate str (not list) to str")
    ∧ load [CsvFile.mk "t.csv" [["Fam", "70"]]]
      = .error (.typeError "can only concatenate str (not list) to str") :=
  ⟨rfl, rfl, rfl, rfl, rfl, rfl⟩

/-- C6: a family with zero `/Quality/`-prefixed tags classifies UNKNOWN and
never appears in the ranked `families` list built by `main`. -/
theorem unknown_never_ranked (ts : List Tag) (f : String)
    (h : quality_tags_for ts f = []) :
    quality_for ts f = .UNKNOWN ∧ f ∉ ranked_families ts := by
  have hu : quality_for ts f = .UNKNOWN := by
    simp [quality_for, h]
  refine ⟨hu, fun hmem => ?_⟩
  have hf : f ∈ ((ts.map Tag.family).dedup).filter
      (fun f => decide (quality_for ts f ≠ Quality.UNKNOWN)) := by
    simpa [ranked_families, List.mem_insertionSort] using hmem
  have := (List.mem_filter.mp hf).2
  simp [hu] at this

/-- C6 witness: a family whose only tag is outside the `/Quality/` namespace. -/
theorem unknown_never_ranked_witness :
    quality_for [Tag.mk "Fam" none "/Other/Tag" 99] "Fam" = .UNKNOWN
    ∧ "Fam" ∉ ranked_families [Tag.mk "Fam" none "/Other/Tag" 99] :=
  unknown_never_ranked [Tag.mk "Fam" none "/Other/Tag" 99] "Fam" rfl

theorem load_files_skip (rows : List (List String)) :
    ∀ (pre post : List CsvFile) (acc : List Tag),
      load_files acc (pre ++ CsvFile.mk "families.csv" rows :: post)
        = load_files acc (pre ++ post) := by
  intro pre
  induction pre with
  | nil =>
    intro post acc
    rw [List.nil_append, List.nil_append, load_files, if_pos rfl]
  | cons f pre ih =>
    intro post acc
    rw [List.cons_append, List.cons_append, load_files, load_files]
    by_cases hname : f.name = "families.csv"
    · rw [if_pos hname, if_pos hname]
      exact ih post acc
    · rw [if_neg hname, if_neg hname]
      cases hr : load_rows acc (f.rows.filter (fun r => !r.isEmpty)) with
      | error e => rfl
      | ok acc₂ => exact ih post acc₂

/-- C7: a file named exactly `families.csv`, wherever it occurs in the
discovered file list, contributes nothing to the loaded tag set, whatever its
rows contain: loading with it present is identical to loading without it, so
none of its rows can ever appear in the result. -/
theorem families_csv_excluded (pre post : List CsvFile) (rows : List (List String)) :
    load (pre ++ CsvFile.mk "families.csv" rows :: post) = load (pre ++ post) :=
  load_files_skip rows pre post []

/-- C10: when no loaded family has a tier other than UNKNOWN (in particular
when the tag set is empty), `main` raises `ValueError` instead of emitting an
empty report. -/
theorem no_quality_no_report (ts : List Tag)
    (h : ∀ t ∈ ts, quality_for ts t.family = .UNKNOWN) :
    main_families ts = .error (.valueError "No families have quality, seems sus!") := by
  have hfilter : ((ts.map Tag.family).dedup).filter
      (fun f => decide (quality_for ts f ≠ Quality.UNKNOWN)) = [] := by
    rw [List.filter_eq_nil_iff]
    intro f hf
    rcases List.mem_map.mp (List.mem_dedup.mp hf) with ⟨t, ht, rfl⟩
    simp [h t ht]
  have hranked : ranked_families ts = [] := by
    rw [ranked_families, hfilter]
    rfl
  simp [main_families, hranked]

/-- C10 witness: a single tag outside the `/Quality/` namespace leaves every
family UNKNOWN, and the report generator errors. -/
theorem no_quality_no_report_witness :
    main_families [Tag.mk "Fam" none "/Other" 1]
      = .error (.valueError "No families have quality, seems sus!") :=
  no_quality_no_report [Tag.mk "Fam" none "/Other" 1] (by decide)

/-! ## Set semantics of `load` (for C8) -/

theorem mem_add_tag {acc : List Tag} {t x : Tag} :
    x ∈ add_tag acc t ↔ x ∈ acc ∨ x = t := by
  unfold add_tag
  by_cases h : t ∈ acc
  · rw [if_pos h]
    constructor
    · exact Or.inl
    · rintro (hx | rfl)
      · exact hx
      · exact h
  · rw [if_neg h]
    simp

theorem add_tag_nodup {acc : List Tag} {t : Tag} (h : acc.Nodup) :
    (add_tag acc t).Nodup := by
  unfold add_tag
  by_cases ht : t ∈ acc
  · rwa [if_pos ht]
  · rw [if_neg ht]
    exact List.Nodup.append h (List.nodup_singleton t)
      (fun a ha hb => ht ((List.mem_singleton.mp hb) ▸ ha))

theorem add_tag_idem (acc : List Tag) (t : Tag) :
    add_tag (add_tag acc t) t = add_tag acc t := by
  by_cases h : t ∈ acc
  · simp [add_tag, h]
  · simp [add_tag, h]

theorem load_rows_mem {rows : List (List String)} :
    ∀ {acc acc₂ : List Tag}, load_rows acc rows = .ok acc₂ →
      ∀ x, (x ∈ acc₂ ↔ x ∈ acc ∨ ∃ row ∈ rows, parse_row row = .ok x) := by
  induction rows with
  | nil =>
    intro acc acc₂ h x
    rw [load_rows] at h
    cases h
    simp
  | cons row rest ih =>
    intro acc acc₂ h x
    rw [load_rows] at h
    cases hp : parse_row row with
    | error e =>
      rw [hp] at h
      exact Except.noConfusion h
    | ok t =>
      rw [hp] at h
      rw [ih h x, mem_add_tag]
      constructor
      · rintro ((hx | rfl) | ⟨r, hr, hpr⟩)
        · exact Or.inl hx
        · exact Or.inr ⟨row, by simp, hp⟩
        · exact Or.inr ⟨r, by simp [hr], hpr⟩
      · rintro (hx | ⟨r, hr, hpr⟩)
        · exact Or.inl (Or.inl hx)
        · rcases List.mem_cons.mp hr with rfl | hr'
          · rw [hp] at hpr
            cases hpr
            exact Or.inl (Or.inr rfl)
          · exact Or.inr ⟨r, hr', hpr⟩

theorem load_rows_ok_iff (rows : List (List String)) :
    ∀ acc : List Tag,
      (∃ acc₂, load_rows acc rows = .ok acc₂) ↔ ∀ row ∈ rows, ∃ t, parse_row row = .ok t := by
  induction rows with
  | nil =>
    intro acc
    simp [load_rows]
  | cons row rest ih =>
    intro acc
    constructor
    · rintro ⟨acc₂, h⟩ r hr
      rw [load_rows] at h
      cases hp : parse_row row with
      | error e =>
        rw [hp] at h
        exact Except.noConfusion h
      | ok t =>
        rw [hp] at h
        rcases List.mem_cons.mp hr with rfl | hr'
        · exact ⟨t, hp⟩
        · exact ((ih (add_tag acc t)).mp ⟨acc₂, h⟩) r hr'
    · intro hall
      obtain ⟨t, hp⟩ := hall row (by simp)
      obtain ⟨acc₂, h⟩ := (ih (add_tag acc t)).mpr (fun r hr => hall r (by simp [hr]))
      refine ⟨acc₂, ?_⟩
      rw [load_rows, hp]
      exact h

theorem load_rows_nodup {rows : List (List String)} :
    ∀ {acc acc₂ : List Tag}, acc.Nodup → load_rows acc rows = .ok acc₂ → acc₂.Nodup := by
  induction rows with
  | nil =>
    intro acc acc₂ hn h
    rw [load_rows] at h
    cases h
    exact hn
  | cons row rest ih =>
    intro acc acc₂ hn h
    rw [load_rows] at h
    cases hp : parse_row row with
    | error e =>
      rw [hp] at h
      exact Except.noConfusion h
    | ok t =>
      rw [hp] at h
      exact ih (add_tag_nodup hn) h

theorem load_files_mem {files : List CsvFile} :
    ∀ {acc acc₂ : List Tag}, load_files acc files = .ok acc₂ →
      ∀ x, (x ∈ acc₂ ↔ x ∈ acc ∨ ∃ file ∈ files, file.name ≠ "families.csv"
            ∧ ∃ row ∈ file.rows.filter (fun r => !r.isEmpty), parse_row row = .ok x) := by
  induction files with
  | nil =>
    intro acc acc₂ h x
    rw [load_files] at h
    cases h
    simp
  | cons file rest ih =>
    intro acc acc₂ h x
    rw [load_files] at h
    by_cases hname : file.name = "families.csv"
    · rw [if_pos hname] at h
      rw [ih h x]
      constructor
      · rintro (hx | ⟨fl, hfl, hne, hrow⟩)
        · exact Or.inl hx
        · exact Or.inr ⟨fl, by simp [hfl], hne, hrow⟩
      · rintro (hx | ⟨fl, hfl, hne, hrow⟩)
        · exact Or.inl hx
        · rcases List.mem_cons.mp hfl with rfl | hfl'
          · exact absurd hname hne
          · exact Or.inr ⟨fl, hfl', hne, hrow⟩
    · rw [if_neg hname] at h
      cases hr : load_rows acc (file.rows.filter (fun r => !r.isEmpty)) with
      | error e =>
        rw [hr] at h
        exact Except.noConfusion h
      | ok acc₁ =>
        rw [hr] at h
        rw [ih h x, load_rows_mem hr x]
        constructor
        · rintro ((hx | ⟨row, hrow, hpr⟩) | ⟨fl, hfl, hne, hrow⟩)
          · exact Or.inl hx
          · exact Or.inr ⟨file, by simp, hname, row, hrow, hpr⟩
          · exact Or.inr ⟨fl, by simp [hfl], hne, hrow⟩
        · rintro (hx | ⟨fl, hfl, hne, ⟨row, hrow, hpr⟩⟩)
          · exact Or.inl (Or.inl hx)
          · rcases List.mem_cons.mp hfl with rfl | hfl'
            · exact Or.inl (Or.inr ⟨row, hrow, hpr⟩)
            · exact Or.inr ⟨fl, hfl', hne, row, hrow, hpr⟩

theorem load_files_ok_iff (files : List CsvFile) :
    ∀ acc : List Tag,
      (∃ acc₂, load_files acc files = .ok acc₂) ↔
        ∀ file ∈ files, file.name ≠ "families.csv" →
          ∀ row ∈ file.rows.filter (fun r => !r.isEmpty), ∃ t, parse_row row = .ok t := by
  induction files with
  | nil =>
    intro acc
    simp [load_files]
  | cons file rest ih =>
    intro acc
    by_cases hname : file.name = "families.csv"
    · simp only [load_files, if_pos hname]
      rw [ih acc]
      constructor
      · intro hall fl hfl hne hrow
        rcases List.mem_cons.mp hfl with rfl | hfl'
        · exact absurd hname hne
        · exact hall fl hfl' hne hrow
      · intro hall fl hfl hne hrow
        exact hall fl (by simp [hfl]) hne hrow
    · constructor
      · rintro ⟨acc₂, h⟩ fl hfl hne row hrow
        rw [load_files, if_neg hname] at h
        cases hr : load_rows acc (file.rows.filter (fun r => !r.isEmpty)) with
        | error e =>
          rw [hr] at h
          exact Except.noConfusion h
        | ok acc₁ =>
          rw [hr] at h
          rcases List.mem_cons.mp hfl with rfl | hfl'
          · exact ((load_rows_ok_iff _ acc).mp ⟨acc₁, hr⟩) row hrow
          · exact ((ih acc₁).mp ⟨acc₂, h⟩) fl hfl' hne row hrow
      · intro hall
        obtain ⟨acc₁, hr⟩ := (load_rows_ok_iff (file.rows.filter (fun r => !r.isEmpty)) acc).mpr
          (fun row hrow => hall file (by simp) hname row hrow)
        obtain ⟨acc₂, h⟩ := (ih acc₁).mpr (fun fl hfl hne hrow => hall fl (by simp [hfl]) hne hrow)
        refine ⟨acc₂, ?_⟩
        rw [load_files, if_neg hname, hr]
        exact h

theorem load_files_nodup {files : List CsvFile} :
    ∀ {acc acc₂ : List Tag}, acc.Nodup → load_files acc files = .ok acc₂ → acc₂.Nodup := by
  induction files with
  | nil =>
    intro acc acc₂ hn h
    rw [load_files] at h
    cases h
    exact hn
  | cons file rest ih =>
    intro acc acc₂ hn h
    rw [load_files] at h
    by_cases hname : file.name = "families.csv"
    · rw [if_pos hname] at h
      exact ih hn h
    · rw [if_neg hname] at h
      cases hr : load_rows acc (file.rows.filter (fun r => !r.isEmpty)) with
      | error e =>
        rw [hr] at h
        exact Except.noConfusion h
      | ok acc₁ =>
        rw [hr] at h
        exact ih (load_rows_nodup hn hr) h

theorem load_rows_append (acc : List Tag) (l₁ l₂ : List (List String)) :
    load_rows acc (l₁ ++ l₂) =
      match load_rows acc l₁ with
      | .error e => .error e
      | .ok a => load_rows a l₂ := by
  induction l₁ generalizing acc with
  | nil => rfl
  | cons row rest ih =>
    cases hp : parse_row row with
    | error e => simp [load_rows, hp]
    | ok t => simp [load_rows, hp, ih]

theorem load_single_file (nm : String) (rows : List (List String))
    (hnm : nm ≠ "families.csv") :
    load [CsvFile.mk nm rows] = load_rows [] (rows.filter (fun r => !r.isEmpty)) := by
  unfold load load_files
  rw [if_neg hnm]
  cases h : load_rows [] (rows.filter (fun r => !r.isEmpty)) with
  | error e => rfl
  | ok a => simp [load_files]

theorem load_dup_row (nm : String) (rows : List (List String)) (r : List String) :
    load [CsvFile.mk nm (rows ++ [r, r])] = load [CsvFile.mk nm (rows ++ [r])] := by
  by_cases hnm : nm = "families.csv"
  · subst hnm
    rfl
  · rw [load_single_file nm _ hnm, load_single_file nm _ hnm, List.filter_append,
      List.filter_append, load_rows_append, load_rows_append]
    cases h1 : load_rows [] (rows.filter (fun r => !r.isEmpty)) with
    | error e => rfl
    | ok a =>
      by_cases hre : r.isEmpty
      · simp [hre]
      · have hfil2 : [r, r].filter (fun r => !r.isEmpty) = [r, r] := by simp [hre]
        have hfil1 : [r].filter (fun r => !r.isEmpty) = [r] := by simp [hre]
        rw [hfil2, hfil1]
        cases hp : parse_row r with
        | error e => simp [load_rows, hp]
        | ok t => simp [load_rows, hp, add_tag_idem]

/-- C8: `load` has set semantics.  When `load files` succeeds with tag set `l`:
loading the same content twice yields the same tag set; any permutation of the
file list (file discovery order) yields the same tag set; the result is
duplicate-free; and a row repeated inside a file loads identically to the row
appearing once. -/
theorem load_set_semantics (files files' : List CsvFile) (l : List Tag)
    (h : load files = .ok l) (hp : files.Perm files') :
    (∃ l₂, load (files ++ files) = .ok l₂ ∧ l₂.toFinset = l.toFinset)
    ∧ (∃ l₂, load files' = .ok l₂ ∧ l₂.toFinset = l.toFinset)
    ∧ l.Nodup
    ∧ ∀ nm rows r, load [CsvFile.mk nm (rows ++ [r, r])] = load [CsvFile.mk nm (rows ++ [r])] := by
  have h' : load_files [] files = .ok l := h
  have hok := (load_files_ok_iff files []).mp ⟨l, h'⟩
  refine ⟨?_, ?_, load_files_nodup List.nodup_nil h', load_dup_row⟩
  · have hok2 : ∀ file ∈ files ++ files, file.name ≠ "families.csv" →
        ∀ row ∈ file.rows.filter (fun r => !r.isEmpty), ∃ t, parse_row row = .ok t := by
      intro file hf
      rcases List.mem_append.mp hf with hf' | hf'
      · exact hok file hf'
      · exact hok file hf'
    obtain ⟨l₂, h₂⟩ := (load_files_ok_iff (files ++ files) []).mpr hok2
    refine ⟨l₂, h₂, ?_⟩
    ext x
    simp only [List.mem_toFinset]
    rw [load_files_mem h₂ x, load_files_mem h' x]
    simp [List.mem_append]
  · have hok2 : ∀ file ∈ files', file.name ≠ "families.csv" →
        ∀ row ∈ file.rows.filter (fun r => !r.isEmpty), ∃ t, parse_row row = .ok t :=
      fun file hf => hok file (hp.mem_iff.mpr hf)
    obtain ⟨l₂, h₂⟩ := (load_files_ok_iff files' []).mpr hok2
    refine ⟨l₂, h₂, ?_⟩
    ext x
    simp only [List.mem_toFinset]
    rw [load_files_mem h₂ x, load_files_mem h' x]
    simp only [hp.mem_iff]

/-- C8 witness: loading one well-formed file twice over reproduces the tag set
of loading it once. -/
theorem load_set_semantics_witness :
    ∃ l₂, load ([CsvFile.mk "a.csv" [["Fam", "/Quality/X", "70"]]]
        ++ [CsvFile.mk "a.csv" [["Fam", "/Quality/X", "70"]]]) = .ok l₂
      ∧ l₂.toFinset = [Tag.mk "Fam" none "/Quality/X" 70].toFinset :=
  (load_set_semantics [CsvFile.mk "a.csv" [["Fam", "/Quality/X", "70"]]]
    [CsvFile.mk "a.csv" [["Fam", "/Quality/X", "70"]]]
    [Tag.mk "Fam" none "/Quality/X" 70] rfl (List.Perm.refl _)).1
